import Mathlib

/-!
# GorgonMemory: typed copies between managed storage and unmanaged memory

A shallow embedding of `Memory::GorgonMemory` (GorgonMemory.h), the four static
generic functions that copy raw bytes between a managed `array<T>^` (or a single
`T`) and the unmanaged address held in an `IntPtr`.

The generic parameter `T` (`where T : value class`) enters the code only through
`sizeof(T)`; it is the parameter `sizeofT` below.  `w` is the width in bits of
`size_t` (32 or 64), `int` is 32 bits wide.

Conventions of the embedding:
* addresses are natural numbers;
* the arguments `offset` and `size` are `int`s, given as integers; theorems that
  depend on the 32-bit range say so in a hypothesis;
* a function returns the value handed back to the caller together with the new
  state; the array overloads can end in the exception of the element access.

The functions are embedded at two levels of detail.

* `Memory.GorgonMemory`: what one call computes on arguments for which `memcpy` is
  defined.  The managed side and the unmanaged memory are two address spaces, so
  the source and the destination of the one copy cannot overlap; `buffer` is an
  existing array.
* `Memory.OneMemory`: the whole behaviour in the single memory of a process.
  `destination` and `source` are arbitrary addresses, the storage of a pinned array
  included; `buffer` may be `nullptr`; `memcpy` ends in a memory fault when it
  touches bytes the process may not access.  The statements about errors and about
  two calls in a row are made here.
-/

namespace Memory

/-- One byte of storage. -/
abbrev Byte := Fin 256

/-- An address space: the byte stored at every address. -/
abbrev Mem := Nat → Byte

/-- The two address spaces the functions move bytes between: the managed side,
where `array<T>^` storage and `T%` slots live, and the unmanaged memory an
`IntPtr` points into ("write directly into unmanaged memory"). -/
structure Machine where
  managed : Mem
  unmanaged : Mem

/-- A managed `array<T>^`: the address of element 0 in the managed space and
the number of elements. -/
structure ManagedArray where
  data : Nat
  Length : Nat

/-- The exceptions the runtime can raise inside the functions: both come from the
element access `buffer[offset]` on a managed array. -/
inductive Exception where
  | IndexOutOfRangeException
  | NullReferenceException
  deriving DecidableEq, Repr

/-- What a completed call leaves behind: the value handed back to the caller
(`none` for a function declared `void`) and the machine state. -/
structure Call where
  returned : Option Int
  state : Machine

/-- The conversion `static_cast<size_t>(n)` of an `int`: `n` modulo `2^w`. -/
def static_cast_size_t (w : Nat) (n : Int) : Nat :=
  (n % 2 ^ w).toNat

/-- The conversion `static_cast<int>(n)` of a `size_t`: `n` modulo `2^32`, read as
a two's complement 32-bit number. -/
def static_cast_int (n : Nat) : Int :=
  ((n : Int) + 2 ^ 31) % 2 ^ 32 - 2 ^ 31

/-- The C library's `memcpy(dest + d, src + s, count)` between two address
spaces: the `count` bytes from `s` on in `src` land at `d` on in `dest`, every
other byte of `dest` stays. -/
def memcpy (dest : Mem) (d : Nat) (src : Mem) (s : Nat) (count : Nat) : Mem :=
  fun a => if d ≤ a ∧ a < d + count then src (s + (a - d)) else dest a

/-- The element address `&buffer[offset]` of a managed array.  Indexing a managed
array is range-checked by the runtime: an index outside `0 .. Length - 1` raises
`IndexOutOfRangeException`; otherwise the address is `offset` elements of
`sizeof(T)` bytes past element 0. -/
def elementAddress (sizeofT : Nat) (buffer : ManagedArray) (offset : Int) :
    Except Exception Nat :=
  if 0 ≤ offset ∧ offset < buffer.Length then
    .ok (buffer.data + offset.toNat * sizeofT)
  else
    .error .IndexOutOfRangeException

namespace GorgonMemory

/-- The overload `static void Write(IntPtr destination, array<T>^ buffer, int offset, int size)`:
pins `&buffer[offset]` and copies `static_cast<size_t>(size)` bytes from there
to `destination`.  Declared `void`: nothing is returned. -/
def Write (sizeofT w : Nat) (st : Machine) (destination : Nat) (buffer : ManagedArray)
    (offset size : Int) : Except Exception Call :=
  match elementAddress sizeofT buffer offset with
  | .error e => .error e
  | .ok pinned =>
    .ok { returned := none
          state := { st with
            unmanaged := memcpy st.unmanaged destination st.managed pinned
              (static_cast_size_t w size) } }

/-- The overload `static void Read(IntPtr source, array<T>^ buffer, int offset, int size)`:
pins `&buffer[offset]` and copies `static_cast<size_t>(size)` bytes from
`source` to there.  Declared `void`: nothing is returned. -/
def Read (sizeofT w : Nat) (st : Machine) (source : Nat) (buffer : ManagedArray)
    (offset size : Int) : Except Exception Call :=
  match elementAddress sizeofT buffer offset with
  | .error e => .error e
  | .ok pinned =>
    .ok { returned := none
          state := { st with
            managed := memcpy st.managed pinned st.unmanaged source
              (static_cast_size_t w size) } }

/-- The overload `static int Write(IntPtr destination, T value)`.  `value` is the
callee's own copy of the argument, given by its object representation: byte `i`
of the value is `value i` for `i < sizeof(T)`, and `&value` is position 0. -/
def WriteValue (sizeofT w : Nat) (st : Machine) (destination : Nat) (value : Mem) : Call :=
  let size : Int := static_cast_int sizeofT
  { returned := some size
    state := { st with
      unmanaged := memcpy st.unmanaged destination value 0 (static_cast_size_t w size) } }

/-- The overload `static int Read(IntPtr source, T %value)`.  `value` is a tracking
reference: the address of the caller's slot in the managed space. -/
def ReadValue (sizeofT w : Nat) (st : Machine) (source : Nat) (value : Nat) : Call :=
  let size : Int := static_cast_int sizeofT
  let pinned : Nat := value
  { returned := some size
    state := { st with
      managed := memcpy st.managed pinned st.unmanaged source (static_cast_size_t w size) } }

end GorgonMemory

/-! ## Observing memory -/

/-- The `n` bytes stored from address `addr` on. -/
def load (m : Mem) (addr n : Nat) : List Byte :=
  (List.range n).map fun i => m (addr + i)

/-- The bytes of element `j` of a managed array whose elements are `sizeofT` bytes wide. -/
def element (sizeofT : Nat) (m : Mem) (buffer : ManagedArray) (j : Nat) : List Byte :=
  load m (buffer.data + j * sizeofT) sizeofT

/-- An address space holding `bytes` from `addr` on and `m` elsewhere. -/
def store (m : Mem) (addr : Nat) (bytes : List Byte) : Mem :=
  fun a => if addr ≤ a ∧ a < addr + bytes.length then bytes.getD (a - addr) 0 else m a

/-- The four bytes of an `int32`, least significant first. -/
def int32Bytes (v : Int) : List Byte :=
  let u : Nat := (v % 2 ^ 32).toNat
  [Fin.ofNat u, Fin.ofNat (u / 2 ^ 8), Fin.ofNat (u / 2 ^ 16), Fin.ofNat (u / 2 ^ 24)]

/-- The bytes of an `int32` array. -/
def int32ArrayBytes (vs : List Int) : List Byte :=
  vs.flatMap int32Bytes

/-- The managed array used in the scenarios: four `int32` elements at managed address 100. -/
def fourInts : ManagedArray := { data := 100, Length := 4 }

/-- A machine whose managed space holds the `int32` array `[1,2,3,4]` at address 100
and whose unmanaged memory is all `0xCC`. -/
def scenarioWrite : Machine :=
  { managed := store (fun _ => 0) 100 (int32ArrayBytes [1, 2, 3, 4])
    unmanaged := fun _ => 0xCC }

/-- A machine whose unmanaged memory holds the bytes of the `int32`s `[2,3]` at address
200 and whose managed space holds a fresh `int32` array of four elements at address 100. -/
def scenarioRead : Machine :=
  { managed := fun _ => 0
    unmanaged := store (fun _ => 0xCC) 200 (int32ArrayBytes [2, 3]) }

/-! ## The functions in the single memory of a process -/

/-- A process memory: the byte at every address, and the regions `(base, length)`
of it the process may access.  Managed arrays and unmanaged blocks lie side by side
in it. -/
structure Process where
  bytes : Mem
  regions : List (Nat × Nat)

/-- The byte range `[a, a + n)` may be accessed: it is empty or lies within one
region. -/
def accessible (regions : List (Nat × Nat)) (a n : Nat) : Bool :=
  n == 0 || regions.any fun r => decide (r.1 ≤ a ∧ a + n ≤ r.1 + r.2)

/-- The byte ranges `[a1, a1 + n1)` and `[a2, a2 + n2)` have no address in common. -/
abbrev disjointRanges (a1 n1 a2 n2 : Nat) : Prop :=
  n1 = 0 ∨ n2 = 0 ∨ a1 + n1 ≤ a2 ∨ a2 + n2 ≤ a1

/-- How a call ends: it completes, handing back `returned` (`none` for a function
declared `void`) and leaving `memory`; or the runtime raises an exception before
anything is copied; or the copy touches memory the process may not access and the
call ends in the memory fault of the platform. -/
inductive Outcome where
  | completed (returned : Option Int) (memory : Process)
  | raised (e : Exception)
  | fault

namespace OneMemory

/-- The C library's `memcpy(dest, src, count)` in one memory.  It checks nothing:
when both byte ranges may be accessed the `count` bytes at `src` land at `dest`
(for ranges that overlap the C standard leaves the result open; here the bytes are
read before any is written), otherwise the call faults (`none`). -/
def memcpy (m : Process) (dest src count : Nat) : Option Process :=
  if accessible m.regions dest count && accessible m.regions src count then
    some { m with bytes := Memory.memcpy m.bytes dest m.bytes src count }
  else
    none

/-- The element address `&buffer[offset]` of an `array<T>^` handle: `nullptr` raises
`NullReferenceException`, an index outside `0 .. Length - 1` raises
`IndexOutOfRangeException`. -/
def elementAddress (sizeofT : Nat) (buffer : Option ManagedArray) (offset : Int) :
    Except Exception Nat :=
  match buffer with
  | none => .error .NullReferenceException
  | some b => Memory.elementAddress sizeofT b offset

/-- The overload `static void Write(IntPtr destination, array<T>^ buffer, int offset, int size)`
in one memory. -/
def Write (sizeofT w : Nat) (m : Process) (destination : Nat) (buffer : Option ManagedArray)
    (offset size : Int) : Outcome :=
  match elementAddress sizeofT buffer offset with
  | .error e => .raised e
  | .ok pinned =>
    match memcpy m destination pinned (static_cast_size_t w size) with
    | none => .fault
    | some m1 => .completed none m1

/-- The overload `static void Read(IntPtr source, array<T>^ buffer, int offset, int size)`
in one memory. -/
def Read (sizeofT w : Nat) (m : Process) (source : Nat) (buffer : Option ManagedArray)
    (offset size : Int) : Outcome :=
  match elementAddress sizeofT buffer offset with
  | .error e => .raised e
  | .ok pinned =>
    match memcpy m pinned source (static_cast_size_t w size) with
    | none => .fault
    | some m1 => .completed none m1

end OneMemory

/-- A two-element `int32` array at address 200. -/
def twoInts : ManagedArray := { data := 200, Length := 2 }

/-- A process holding the `int32` array `[1,2,3,4]` at address 100 in a region of 32
bytes (the 16 bytes after the array belong to other objects and hold `0xAA`), the
`int32` array `[5,6]` at address 200 in a region of 16 bytes, and an unmanaged block
of 16 bytes of `0xCC` at address 300. -/
def scenarioProcess : Process :=
  { bytes := store (store (store (store (fun _ => 0) 100 (int32ArrayBytes [1, 2, 3, 4]))
        116 (List.replicate 16 0xAA)) 200 (int32ArrayBytes [5, 6]))
        300 (List.replicate 16 0xCC)
    regions := [(100, 32), (200, 16), (300, 16)] }

/-! ## Arithmetic of the two casts -/

theorem two_pow_32_le (w : Nat) (hw : 32 ≤ w) : (2 : Int) ^ 32 ≤ 2 ^ w :=
  pow_le_pow_right₀ (by norm_num) hw

theorem static_cast_size_t_of_nonneg (w : Nat) (n : Int) (hw : 32 ≤ w)
    (h0 : 0 ≤ n) (h1 : n < 2 ^ 31) : static_cast_size_t w n = n.toNat := by
  have h := two_pow_32_le w hw
  unfold static_cast_size_t
  rw [Int.emod_eq_of_lt h0 (by omega)]

theorem static_cast_size_t_of_neg (w : Nat) (n : Int) (hw : 32 ≤ w)
    (h0 : -2 ^ 31 ≤ n) (h1 : n < 0) : (static_cast_size_t w n : Int) = n + 2 ^ w := by
  have h := two_pow_32_le w hw
  unfold static_cast_size_t
  have e : n % 2 ^ w = n + 2 ^ w := by
    rw [← Int.add_emod_self (a := n) (b := 2 ^ w)]
    exact Int.emod_eq_of_lt (by omega) (by omega)
  rw [e, Int.toNat_of_nonneg (by omega)]

theorem static_cast_int_of_lt (n : Nat) (h : n < 2 ^ 31) : static_cast_int n = n := by
  unfold static_cast_int
  rw [Int.emod_eq_of_lt (by omega) (by omega)]
  omega

theorem static_cast_sizeof (w n : Nat) (hw : 32 ≤ w) (h : n < 2 ^ 31) :
    static_cast_size_t w (static_cast_int n) = n := by
  rw [static_cast_int_of_lt n h,
    static_cast_size_t_of_nonneg w n hw (by omega) (by omega)]
  simp

/-! ## What `memcpy` and the element access do -/

theorem memcpy_inside (dest : Mem) (d : Nat) (src : Mem) (s count i : Nat) (h : i < count) :
    memcpy dest d src s count (d + i) = src (s + i) := by
  simp [memcpy, h]

theorem memcpy_outside (dest : Mem) (d : Nat) (src : Mem) (s count a : Nat)
    (h : a < d ∨ d + count ≤ a) : memcpy dest d src s count a = dest a := by
  unfold memcpy
  rw [if_neg (by omega)]

theorem load_eq_of_forall (m1 m2 : Mem) (a1 a2 n : Nat)
    (h : ∀ i, i < n → m1 (a1 + i) = m2 (a2 + i)) : load m1 a1 n = load m2 a2 n := by
  unfold load
  apply List.map_congr_left
  intro i hi
  exact h i (List.mem_range.mp hi)

theorem elementAddress_valid (sizeofT : Nat) (buffer : ManagedArray) (offset : Int)
    (h : 0 ≤ offset ∧ offset < buffer.Length) :
    elementAddress sizeofT buffer offset = .ok (buffer.data + offset.toNat * sizeofT) := by
  unfold elementAddress
  rw [if_pos h]

theorem elementAddress_invalid (sizeofT : Nat) (buffer : ManagedArray) (offset : Int)
    (h : ¬ (0 ≤ offset ∧ offset < buffer.Length)) :
    elementAddress sizeofT buffer offset = .error .IndexOutOfRangeException := by
  unfold elementAddress
  rw [if_neg h]

theorem Write_valid (sizeofT w : Nat) (st : Machine) (destination : Nat)
    (buffer : ManagedArray) (offset size : Int) (h : 0 ≤ offset ∧ offset < buffer.Length) :
    GorgonMemory.Write sizeofT w st destination buffer offset size =
      .ok { returned := none
            state := { managed := st.managed
                       unmanaged := memcpy st.unmanaged destination st.managed
                         (buffer.data + offset.toNat * sizeofT) (static_cast_size_t w size) } } := by
  unfold GorgonMemory.Write
  rw [elementAddress_valid sizeofT buffer offset h]

theorem Read_valid (sizeofT w : Nat) (st : Machine) (source : Nat)
    (buffer : ManagedArray) (offset size : Int) (h : 0 ≤ offset ∧ offset < buffer.Length) :
    GorgonMemory.Read sizeofT w st source buffer offset size =
      .ok { returned := none
            state := { managed := memcpy st.managed (buffer.data + offset.toNat * sizeofT)
                         st.unmanaged source (static_cast_size_t w size)
                       unmanaged := st.unmanaged } } := by
  unfold GorgonMemory.Read
  rw [elementAddress_valid sizeofT buffer offset h]

/-! ## Index arithmetic of element ranges -/

theorem byte_in_copied_range (k q s o j i : Nat) (hq : q * k ≤ s) (hj1 : o ≤ j)
    (hj2 : j < o + q) (hi : i < k) :
    (j - o) * k + i < s ∧ j * k + i = o * k + ((j - o) * k + i) := by
  obtain ⟨t, rfl⟩ := Nat.exists_eq_add_of_le hj1
  have h1 : (t + 1) * k ≤ q * k := Nat.mul_le_mul_right k (by omega)
  have h2 : (t + 1) * k = t * k + k := Nat.succ_mul t k
  have h3 : (o + t) * k = o * k + t * k := Nat.add_mul o t k
  have h4 : o + t - o = t := by omega
  rw [h4]
  omega

theorem byte_below_range (k o j i : Nat) (hj : j < o) (hi : i < k) :
    j * k + i < o * k := by
  have h1 : (j + 1) * k ≤ o * k := Nat.mul_le_mul_right k (by omega)
  have h2 : (j + 1) * k = j * k + k := Nat.succ_mul j k
  omega

theorem byte_above_range (k q s o j : Nat) (hq : q * k = s) (hj : o + q ≤ j) :
    o * k + s ≤ j * k := by
  have h1 : (o + q) * k ≤ j * k := Nat.mul_le_mul_right k hj
  have h2 : (o + q) * k = o * k + q * k := Nat.add_mul o q k
  omega

/-! ## The array overloads -/

/-- C2: the array `Write` with a valid `offset` and a `size >= 0` lying within the
buffer succeeds, leaves the managed side alone, and the unmanaged memory afterwards
is the memory before with byte `destination + i`, for `0 <= i < size`, replaced by
the byte `i` positions past the start of element `offset` of the buffer; every byte
outside `[destination, destination + size)` is unchanged.  For the `int32` buffer
`[1,2,3,4]`, `offset = 1`, `size = 8` the destination receives the bytes of `[2,3]`
and its neighbours keep their contents. -/
theorem array_write_copies_exactly_size (sizeofT w : Nat) (st : Machine) (destination : Nat)
    (buffer : ManagedArray) (offset size : Int) (hw : 32 ≤ w)
    (ho : 0 ≤ offset ∧ offset < buffer.Length) (hs : 0 ≤ size ∧ size < 2 ^ 31)
    (hfit : offset * sizeofT + size ≤ buffer.Length * sizeofT) :
    (∃ c, GorgonMemory.Write sizeofT w st destination buffer offset size = .ok c ∧
      c.state.managed = st.managed ∧
      (∀ i : Nat, (i : Int) < size →
        c.state.unmanaged (destination + i) =
          st.managed (buffer.data + offset.toNat * sizeofT + i)) ∧
      (∀ a : Nat, a < destination ∨ (destination : Int) + size ≤ a →
        c.state.unmanaged a = st.unmanaged a)) ∧
    (GorgonMemory.Write 4 64 scenarioWrite 200 fourInts 1 8).toOption.map
        (fun c => load c.state.unmanaged 198 12) =
      some ([0xCC, 0xCC] ++ int32ArrayBytes [2, 3] ++ [0xCC, 0xCC]) := by
  refine ⟨⟨_, Write_valid sizeofT w st destination buffer offset size ho, rfl, ?_, ?_⟩, by decide⟩
  · intro i hi
    show memcpy _ _ _ _ _ _ = _
    rw [static_cast_size_t_of_nonneg w size hw hs.1 hs.2]
    exact memcpy_inside _ _ _ _ _ _ (by omega)
  · intro a ha
    show memcpy _ _ _ _ _ _ = _
    rw [static_cast_size_t_of_nonneg w size hw hs.1 hs.2]
    exact memcpy_outside _ _ _ _ _ _ (by omega)

/-- Witness of C2: the scenario of the `int32` buffer `[1,2,3,4]`, `offset = 1`, `size = 8`. -/
theorem array_write_copies_exactly_size_witness :
    (∃ c, GorgonMemory.Write 4 64 scenarioWrite 200 fourInts 1 8 = .ok c ∧
      c.state.managed = scenarioWrite.managed ∧
      (∀ i : Nat, (i : Int) < 8 →
        c.state.unmanaged (200 + i) =
          scenarioWrite.managed (fourInts.data + (1 : Int).toNat * 4 + i)) ∧
      (∀ a : Nat, a < 200 ∨ ((200 : Nat) : Int) + 8 ≤ a →
        c.state.unmanaged a = scenarioWrite.unmanaged a)) :=
  (array_write_copies_exactly_size 4 64 scenarioWrite 200 fourInts 1 8 (by decide)
    (by decide) (by decide) (by decide)).1

/-- C3: the array `Read` with a valid `offset` and a `size >= 0` that is a multiple of
`sizeof(T)` with `offset + size/sizeof(T) <= N` succeeds, leaves the unmanaged memory
alone, puts the `size` bytes found at `source` into the elements
`offset .. offset + size/sizeof(T) - 1`, and leaves every element below `offset` or at
or above `offset + size/sizeof(T)` unchanged.  For a fresh 4-element `int32` buffer,
`offset = 1`, `size = 8` and source bytes of `[2,3]` the buffer becomes `[0,2,3,0]`. -/
theorem array_read_touches_only_range (sizeofT w : Nat) (st : Machine) (source : Nat)
    (buffer : ManagedArray) (N : Nat) (offset size : Int) (hw : 32 ≤ w)
    (hN : buffer.Length = N) (ho : 0 ≤ offset ∧ offset < N) (hs : 0 ≤ size ∧ size < 2 ^ 31)
    (hmul : (sizeofT : Int) ∣ size) (hfit : offset + size / sizeofT ≤ N) :
    (∃ c, GorgonMemory.Read sizeofT w st source buffer offset size = .ok c ∧
      c.state.unmanaged = st.unmanaged ∧
      load c.state.managed (buffer.data + offset.toNat * sizeofT) size.toNat =
        load st.unmanaged source size.toNat ∧
      (∀ j : Nat, offset ≤ j → (j : Int) < offset + size / sizeofT →
        element sizeofT c.state.managed buffer j =
          load st.unmanaged (source + (j - offset.toNat) * sizeofT) sizeofT) ∧
      (∀ j : Nat, (j : Int) < offset ∨ offset + size / sizeofT ≤ j →
        element sizeofT c.state.managed buffer j = element sizeofT st.managed buffer j)) ∧
    (GorgonMemory.Read 4 64 scenarioRead 200 fourInts 1 8).toOption.map
        (fun c => load c.state.managed 100 16) =
      some (int32ArrayBytes [0, 2, 3, 0]) := by
  subst hN
  refine ⟨⟨_, Read_valid sizeofT w st source buffer offset size ho, rfl, ?_, ?_, ?_⟩, by decide⟩
  all_goals
    obtain ⟨o, rfl⟩ := Int.eq_ofNat_of_zero_le ho.1
    obtain ⟨s, rfl⟩ := Int.eq_ofNat_of_zero_le hs.1
    have hq : s / sizeofT * sizeofT = s :=
      Nat.div_mul_cancel (Int.natCast_dvd_natCast.mp hmul)
    have hdiv : ((s : Int) / (sizeofT : Int)) = ((s / sizeofT : Nat) : Int) := by norm_cast
    rw [hdiv] at *
    simp only [static_cast_size_t_of_nonneg w s hw hs.1 hs.2, Int.toNat_ofNat]
  · apply load_eq_of_forall
    intro i hi
    exact memcpy_inside _ _ _ _ _ _ hi
  · intro j hj1 hj2
    apply load_eq_of_forall
    intro i hi
    obtain ⟨h1, h2⟩ := byte_in_copied_range sizeofT (s / sizeofT) s o j i (le_of_eq hq)
      (by omega) (by omega) hi
    have e1 : buffer.data + j * sizeofT + i
        = buffer.data + o * sizeofT + ((j - o) * sizeofT + i) := by omega
    have e2 : source + (j - o) * sizeofT + i = source + ((j - o) * sizeofT + i) := by omega
    rw [e1, e2]
    exact memcpy_inside _ _ _ _ _ _ h1
  · intro j hj
    apply load_eq_of_forall
    intro i hi
    apply memcpy_outside
    rcases hj with hj | hj
    · have := byte_below_range sizeofT o j i (by omega) hi
      omega
    · have := byte_above_range sizeofT (s / sizeofT) s o j hq (by omega)
      omega

/-- Witness of C3: the fresh 4-element `int32` buffer, `offset = 1`, `size = 8`. -/
theorem array_read_touches_only_range_witness :
    ∃ c, GorgonMemory.Read 4 64 scenarioRead 200 fourInts 1 8 = .ok c ∧
      c.state.unmanaged = scenarioRead.unmanaged ∧
      load c.state.managed (fourInts.data + (1 : Int).toNat * 4) (8 : Int).toNat =
        load scenarioRead.unmanaged 200 (8 : Int).toNat ∧
      (∀ j : Nat, (1 : Int) ≤ j → (j : Int) < 1 + 8 / ((4 : Nat) : Int) →
        element 4 c.state.managed fourInts j =
          load scenarioRead.unmanaged (200 + (j - (1 : Int).toNat) * 4) 4) ∧
      (∀ j : Nat, (j : Int) < 1 ∨ (1 : Int) + 8 / ((4 : Nat) : Int) ≤ j →
        element 4 c.state.managed fourInts j = element 4 scenarioRead.managed fourInts j) :=
  (array_read_touches_only_range 4 64 scenarioRead 200 fourInts 4 1 8 (by decide)
    rfl (by decide) (by decide) (by decide) (by decide)).1

/-- C1: array round trip.  For an element size `sizeof(T) >= 1`, buffers `B` and `B2`
of length `N`, a valid index `offset` and a `size >= 0` with
`offset + size/sizeof(T) <= N`, the array `Write(addr, B, offset, size)` followed by
the array `Read(addr, B2, offset, size)` both succeed, and afterwards every element
of `B2` at an index in `[offset, offset + size/sizeof(T))` equals, byte for byte, the
element of `B` at that index, whatever `B2` and the memory at `addr` held before. -/
theorem array_round_trip (sizeofT w : Nat) (st : Machine) (addr : Nat) (B B2 : ManagedArray)
    (N : Nat) (offset size : Int) (hw : 32 ≤ w) (hT : 1 ≤ sizeofT)
    (hB : B.Length = N) (hB2 : B2.Length = N)
    (ho : 0 ≤ offset ∧ offset < N) (hs : 0 ≤ size ∧ size < 2 ^ 31)
    (hfit : offset + size / sizeofT ≤ N) :
    ∃ c1 c2, GorgonMemory.Write sizeofT w st addr B offset size = .ok c1 ∧
      GorgonMemory.Read sizeofT w c1.state addr B2 offset size = .ok c2 ∧
      ∀ j : Nat, offset ≤ j → (j : Int) < offset + size / sizeofT →
        element sizeofT c2.state.managed B2 j = element sizeofT st.managed B j := by
  subst hB
  refine ⟨_, _, Write_valid sizeofT w st addr B offset size ho,
    Read_valid sizeofT w _ addr B2 offset size (by rw [hB2]; exact ho), ?_⟩
  obtain ⟨o, rfl⟩ := Int.eq_ofNat_of_zero_le ho.1
  obtain ⟨s, rfl⟩ := Int.eq_ofNat_of_zero_le hs.1
  have hq : s / sizeofT * sizeofT ≤ s := Nat.div_mul_le_self s sizeofT
  have hdiv : ((s : Int) / (sizeofT : Int)) = ((s / sizeofT : Nat) : Int) := by norm_cast
  rw [hdiv] at *
  simp only [static_cast_size_t_of_nonneg w s hw hs.1 hs.2, Int.toNat_ofNat]
  intro j hj1 hj2
  apply load_eq_of_forall
  intro i hi
  obtain ⟨h1, h2⟩ := byte_in_copied_range sizeofT (s / sizeofT) s o j i hq
    (by omega) (by omega) hi
  have e1 : B2.data + j * sizeofT + i
      = B2.data + o * sizeofT + ((j - o) * sizeofT + i) := by omega
  have e2 : B.data + j * sizeofT + i
      = B.data + o * sizeofT + ((j - o) * sizeofT + i) := by omega
  rw [e1, e2, memcpy_inside _ _ _ _ _ _ h1, memcpy_inside _ _ _ _ _ _ h1]

/-- Witness of C1: the `int32` buffer `[1,2,3,4]` written from element 1 for 8 bytes to
address 200 and read back into a second 4-element buffer at managed address 300. -/
theorem array_round_trip_witness :
    ∃ c1 c2, GorgonMemory.Write 4 64 scenarioWrite 200 fourInts 1 8 = .ok c1 ∧
      GorgonMemory.Read 4 64 c1.state 200 { data := 300, Length := 4 } 1 8 = .ok c2 ∧
      ∀ j : Nat, (1 : Int) ≤ j → (j : Int) < 1 + 8 / ((4 : Nat) : Int) →
        element 4 c2.state.managed { data := 300, Length := 4 } j
          = element 4 scenarioWrite.managed fourInts j :=
  array_round_trip 4 64 scenarioWrite 200 fourInts { data := 300, Length := 4 } 4 1 8
    (by decide) (by decide) rfl rfl (by decide) (by decide) (by decide)

/-! ## The scalar overloads -/

/-- C4: scalar round trip.  For a value type with `sizeof(T) < 2^31`, every value `v`
and every address `addr`, the scalar `Write(addr, v)` followed by the scalar
`Read(addr, v2)` leaves in the slot `v2` exactly the `sizeof(T)` bytes of `v`, whatever
the slot and the memory held before. -/
theorem scalar_round_trip (sizeofT w : Nat) (st : Machine) (addr : Nat) (v : Mem) (v2 : Nat)
    (hw : 32 ≤ w) (hT : sizeofT < 2 ^ 31) :
    load (GorgonMemory.ReadValue sizeofT w
        (GorgonMemory.WriteValue sizeofT w st addr v).state addr v2).state.managed v2 sizeofT
      = load v 0 sizeofT := by
  apply load_eq_of_forall
  intro i hi
  show memcpy _ _ (memcpy _ _ _ _ _) _ _ _ = _
  rw [static_cast_sizeof w sizeofT hw hT, memcpy_inside _ _ _ _ _ _ hi,
    memcpy_inside _ _ _ _ _ _ hi]

/-- Witness of C4: the 4-byte value `0x04030201` through address 200 into slot 100. -/
theorem scalar_round_trip_witness :
    load (GorgonMemory.ReadValue 4 64
        (GorgonMemory.WriteValue 4 64 scenarioRead 200
          (store (fun _ => 0) 0 [1, 2, 3, 4])).state 200 100).state.managed 100 4
      = load (store (fun _ => 0) 0 [1, 2, 3, 4]) 0 4 :=
  scalar_round_trip 4 64 scenarioRead 200 (store (fun _ => 0) 0 [1, 2, 3, 4]) 100
    (by decide) (by decide)

/-- C6: scalar size law.  For a value type with `sizeof(T) < 2^31` the scalar `Write`
and the scalar `Read` each return `sizeof(T)`, whatever the value, the address and
the memory contents; a 4-byte scalar gives 4 and an 8-byte scalar gives 8. -/
theorem scalar_ops_return_sizeof (sizeofT w : Nat) (st : Machine) (addr : Nat) (v : Mem)
    (slot : Nat) (hT : sizeofT < 2 ^ 31) :
    (GorgonMemory.WriteValue sizeofT w st addr v).returned = some (sizeofT : Int) ∧
    (GorgonMemory.ReadValue sizeofT w st addr slot).returned = some (sizeofT : Int) ∧
    (GorgonMemory.WriteValue 4 w st addr v).returned = some 4 ∧
    (GorgonMemory.WriteValue 8 w st addr v).returned = some 8 := by
  have h4 := static_cast_int_of_lt 4 (by norm_num)
  have h8 := static_cast_int_of_lt 8 (by norm_num)
  refine ⟨?_, ?_, ?_, ?_⟩
  · show some (static_cast_int sizeofT) = _
    rw [static_cast_int_of_lt sizeofT hT]
  · show some (static_cast_int sizeofT) = _
    rw [static_cast_int_of_lt sizeofT hT]
  · show some (static_cast_int 4) = _
    rw [h4]; rfl
  · show some (static_cast_int 8) = _
    rw [h8]; rfl

/-- Witness of C6: an 8-byte scalar. -/
theorem scalar_ops_return_sizeof_witness :
    (GorgonMemory.WriteValue 8 64 scenarioRead 200 (fun _ => 7)).returned
        = some ((8 : Nat) : Int) ∧
    (GorgonMemory.ReadValue 8 64 scenarioRead 200 100).returned = some ((8 : Nat) : Int) ∧
    (GorgonMemory.WriteValue 4 64 scenarioRead 200 (fun _ => 7)).returned = some 4 ∧
    (GorgonMemory.WriteValue 8 64 scenarioRead 200 (fun _ => 7)).returned = some 8 :=
  scalar_ops_return_sizeof 8 64 scenarioRead 200 (fun _ => 7) 100 (by decide)

/-- C7: scalar `Read` fully overwrites its output.  For a value type with
`sizeof(T) < 2^31`, every source address and unmanaged memory, and every two managed
states `p1` and `p2` (two prior contents of the slot and of everything around it),
`Read(source, value)` leaves the same `sizeof(T)` bytes in the slot from both, namely
the `sizeof(T)` bytes found at `source`. -/
theorem scalar_read_overwrites (sizeofT w : Nat) (p1 p2 unmanaged : Mem) (source slot : Nat)
    (hw : 32 ≤ w) (hT : sizeofT < 2 ^ 31) :
    load (GorgonMemory.ReadValue sizeofT w { managed := p1, unmanaged := unmanaged }
        source slot).state.managed slot sizeofT
      = load (GorgonMemory.ReadValue sizeofT w { managed := p2, unmanaged := unmanaged }
        source slot).state.managed slot sizeofT ∧
    load (GorgonMemory.ReadValue sizeofT w { managed := p1, unmanaged := unmanaged }
        source slot).state.managed slot sizeofT
      = load unmanaged source sizeofT := by
  have key : ∀ p : Mem,
      load (GorgonMemory.ReadValue sizeofT w { managed := p, unmanaged := unmanaged }
        source slot).state.managed slot sizeofT = load unmanaged source sizeofT := by
    intro p
    apply load_eq_of_forall
    intro i hi
    show memcpy _ _ _ _ _ _ = _
    rw [static_cast_sizeof w sizeofT hw hT, memcpy_inside _ _ _ _ _ _ hi]
  exact ⟨(key p1).trans (key p2).symm, key p1⟩

/-- Witness of C7: a 4-byte slot at 100 holding zeros in one run and `0xFF` in the other. -/
theorem scalar_read_overwrites_witness :
    load (GorgonMemory.ReadValue 4 64
        { managed := fun _ => 0, unmanaged := scenarioRead.unmanaged } 200 100).state.managed 100 4
      = load (GorgonMemory.ReadValue 4 64
        { managed := fun _ => 0xFF, unmanaged := scenarioRead.unmanaged } 200 100).state.managed
          100 4 ∧
    load (GorgonMemory.ReadValue 4 64
        { managed := fun _ => 0, unmanaged := scenarioRead.unmanaged } 200 100).state.managed 100 4
      = load scenarioRead.unmanaged 200 4 :=
  scalar_read_overwrites 4 64 (fun _ => 0) (fun _ => 0xFF) scenarioRead.unmanaged 200 100
    (by decide) (by decide)

/-! ## Return value, errors and byte counts of the array overloads -/

/-- C5, evaluated on the code: the array `Write` and the array `Read` are declared
`void`; on the `int32` scenarios with `offset = 1`, `size = 8` both complete and hand
nothing back, so the caller does not receive `size = 8`. -/
theorem array_ops_return_nothing :
    (GorgonMemory.Write 4 64 scenarioWrite 200 fourInts 1 8).toOption.map Call.returned
      = some none ∧
    (GorgonMemory.Read 4 64 scenarioRead 200 fourInts 1 8).toOption.map Call.returned
      = some none ∧
    (GorgonMemory.Write 4 64 scenarioWrite 200 fourInts 1 8).toOption.map Call.returned
      ≠ some (some 8) := by
  refine ⟨?_, ?_, ?_⟩ <;> decide

/-- C8 as stated fails: with the 4-element buffer, `offset = 4` makes the array `Write`
end in `IndexOutOfRangeException`, and `offset = -1` does the same to the array `Read`. -/
theorem array_ops_raise_on_bad_offset :
    GorgonMemory.Write 4 64 scenarioWrite 200 fourInts 4 8
      = .error .IndexOutOfRangeException ∧
    GorgonMemory.Read 4 64 scenarioRead 200 fourInts (-1) 8
      = .error .IndexOutOfRangeException :=
  ⟨rfl, rfl⟩

/-! ## Errors of the array overloads in one memory -/

theorem accessible_sub (R : List (Nat × Nat)) (a n b k : Nat)
    (h : accessible R a n = true) (h1 : a ≤ b) (h2 : b + k ≤ a + n) :
    accessible R b k = true := by
  unfold accessible at *
  simp only [Bool.or_eq_true, beq_iff_eq, List.any_eq_true, decide_eq_true_eq] at *
  rcases h with h0 | ⟨r, hr, hc⟩
  · left; omega
  · right; exact ⟨r, hr, by omega⟩

theorem oneMemory_elementAddress_valid (sizeofT : Nat) (b : ManagedArray) (offset : Int)
    (h : 0 ≤ offset ∧ offset < b.Length) :
    OneMemory.elementAddress sizeofT (some b) offset
      = .ok (b.data + offset.toNat * sizeofT) :=
  elementAddress_valid sizeofT b offset h

theorem oneMemory_memcpy_eq_none (m : Process) (dest src count : Nat) :
    OneMemory.memcpy m dest src count = none
      ↔ ¬ (accessible m.regions dest count = true ∧ accessible m.regions src count = true) := by
  unfold OneMemory.memcpy
  by_cases h : accessible m.regions dest count = true ∧ accessible m.regions src count = true
  · simp [h]
  · have h2 : (accessible m.regions dest count && accessible m.regions src count) = false := by
      simpa using h
    simp [h, h2]

theorem oneMemory_Write_raised (sizeofT w : Nat) (m : Process) (addr : Nat)
    (buffer : Option ManagedArray) (offset size : Int) (e : Exception) :
    OneMemory.Write sizeofT w m addr buffer offset size = .raised e
      ↔ OneMemory.elementAddress sizeofT buffer offset = .error e := by
  unfold OneMemory.Write
  cases h : OneMemory.elementAddress sizeofT buffer offset with
  | error x => simp
  | ok pinned =>
    cases h2 : OneMemory.memcpy m addr pinned (static_cast_size_t w size) <;> simp [h2]

theorem oneMemory_Read_raised (sizeofT w : Nat) (m : Process) (addr : Nat)
    (buffer : Option ManagedArray) (offset size : Int) (e : Exception) :
    OneMemory.Read sizeofT w m addr buffer offset size = .raised e
      ↔ OneMemory.elementAddress sizeofT buffer offset = .error e := by
  unfold OneMemory.Read
  cases h : OneMemory.elementAddress sizeofT buffer offset with
  | error x => simp
  | ok pinned =>
    cases h2 : OneMemory.memcpy m pinned addr (static_cast_size_t w size) <;> simp [h2]

theorem oneMemory_elementAddress_null (sizeofT : Nat) (buffer : Option ManagedArray)
    (offset : Int) :
    OneMemory.elementAddress sizeofT buffer offset = .error .NullReferenceException
      ↔ buffer = none := by
  cases buffer with
  | none => simp [OneMemory.elementAddress]
  | some b =>
    unfold OneMemory.elementAddress elementAddress
    by_cases h : 0 ≤ offset ∧ offset < b.Length <;> simp [h]

theorem oneMemory_elementAddress_range (sizeofT : Nat) (buffer : Option ManagedArray)
    (offset : Int) :
    OneMemory.elementAddress sizeofT buffer offset = .error .IndexOutOfRangeException
      ↔ ∃ b, buffer = some b ∧ ¬ (0 ≤ offset ∧ offset < b.Length) := by
  cases buffer with
  | none => simp [OneMemory.elementAddress]
  | some b =>
    unfold OneMemory.elementAddress elementAddress
    by_cases h : 0 ≤ offset ∧ offset < b.Length
    · simp [h]
    · show (if 0 ≤ offset ∧ offset < b.Length then _ else _) = _ ↔ _
      rw [if_neg h]
      exact ⟨fun _ => ⟨b, rfl, h⟩, fun _ => rfl⟩

/-- C8 amended: the array `Write` and the array `Read` validate neither `size` nor the
address and signal no error of their own for them; only the element access
`buffer[offset]` is checked.  For every memory, address, buffer, offset and size:
`NullReferenceException` is raised exactly when the buffer is `nullptr`, and
`IndexOutOfRangeException` exactly when the buffer is an array and `offset` is not a
valid index of it.  With an array and a valid `offset` no exception is raised
whatever `size` and the address are: the call completes, or it ends in the memory
fault of the platform, the latter exactly when the copy touches bytes the process may
not access.  So a `Read` of 8 bytes at element 3 of the 4-element `int32` buffer
completes and silently overwrites the 4 bytes behind the buffer, and a `Write` with
`size = INT_MIN` or `size = INT_MAX` faults. -/
theorem array_ops_check_only_the_element_access (sizeofT w : Nat) (m : Process) (addr : Nat)
    (buffer : Option ManagedArray) (offset size : Int) :
    (OneMemory.Write sizeofT w m addr buffer offset size = .raised .NullReferenceException
      ↔ buffer = none) ∧
    (OneMemory.Write sizeofT w m addr buffer offset size = .raised .IndexOutOfRangeException
      ↔ ∃ b, buffer = some b ∧ ¬ (0 ≤ offset ∧ offset < b.Length)) ∧
    (OneMemory.Read sizeofT w m addr buffer offset size = .raised .NullReferenceException
      ↔ buffer = none) ∧
    (OneMemory.Read sizeofT w m addr buffer offset size = .raised .IndexOutOfRangeException
      ↔ ∃ b, buffer = some b ∧ ¬ (0 ≤ offset ∧ offset < b.Length)) ∧
    (∀ b : ManagedArray, buffer = some b → (0 ≤ offset ∧ offset < b.Length) →
      (OneMemory.Write sizeofT w m addr buffer offset size = .fault ∨
        ∃ m1, OneMemory.Write sizeofT w m addr buffer offset size = .completed none m1) ∧
      (OneMemory.Write sizeofT w m addr buffer offset size = .fault ↔
        ¬ (accessible m.regions addr (static_cast_size_t w size) = true ∧
           accessible m.regions (b.data + offset.toNat * sizeofT)
             (static_cast_size_t w size) = true)) ∧
      (OneMemory.Read sizeofT w m addr buffer offset size = .fault ∨
        ∃ m1, OneMemory.Read sizeofT w m addr buffer offset size = .completed none m1) ∧
      (OneMemory.Read sizeofT w m addr buffer offset size = .fault ↔
        ¬ (accessible m.regions (b.data + offset.toNat * sizeofT)
             (static_cast_size_t w size) = true ∧
           accessible m.regions addr (static_cast_size_t w size) = true))) ∧
    (load scenarioProcess.bytes 112 8 = int32Bytes 4 ++ [0xAA, 0xAA, 0xAA, 0xAA] ∧
      ∃ m1, OneMemory.Read 4 64 scenarioProcess 300 (some fourInts) 3 8 = .completed none m1 ∧
        load m1.bytes 112 8 = List.replicate 8 0xCC) ∧
    OneMemory.Write 4 64 scenarioProcess 300 (some fourInts) 1 (-2147483648) = .fault ∧
    OneMemory.Write 4 64 scenarioProcess 300 (some fourInts) 1 2147483647 = .fault := by
  refine ⟨?_, ?_, ?_, ?_, ?_, ⟨by decide, _, rfl, by decide⟩, rfl, rfl⟩
  · rw [oneMemory_Write_raised, oneMemory_elementAddress_null]
  · rw [oneMemory_Write_raised, oneMemory_elementAddress_range]
  · rw [oneMemory_Read_raised, oneMemory_elementAddress_null]
  · rw [oneMemory_Read_raised, oneMemory_elementAddress_range]
  · intro b hb ho
    subst hb
    unfold OneMemory.Write OneMemory.Read
    rw [oneMemory_elementAddress_valid sizeofT b offset ho]
    refine ⟨?_, ?_, ?_, ?_⟩
    · cases h : OneMemory.memcpy m addr (b.data + offset.toNat * sizeofT)
        (static_cast_size_t w size) <;> simp [h]
    · rw [← oneMemory_memcpy_eq_none]
      cases h : OneMemory.memcpy m addr (b.data + offset.toNat * sizeofT)
        (static_cast_size_t w size) <;> simp [h]
    · cases h : OneMemory.memcpy m (b.data + offset.toNat * sizeofT) addr
        (static_cast_size_t w size) <;> simp [h]
    · rw [← oneMemory_memcpy_eq_none]
      cases h : OneMemory.memcpy m (b.data + offset.toNat * sizeofT) addr
        (static_cast_size_t w size) <;> simp [h]

/-- C9: negative sizes are not empty copies.  With `size_t` at least 32 bits wide, an
`int` `size` and a valid `offset`, the array `Write` and the array `Read` hand
`static_cast<size_t>(size)` to `memcpy`; for `size < 0` that count is `size + 2^w`,
strictly greater than every non-negative `int`; the count equals `size` exactly when
`size >= 0`, and it is zero, leaving the memory as it was, exactly when `size = 0`. -/
theorem negative_size_is_huge_count (sizeofT w : Nat) (st : Machine) (addr : Nat)
    (buffer : ManagedArray) (offset size : Int) (hw : 32 ≤ w)
    (ho : 0 ≤ offset ∧ offset < buffer.Length) (hs : -2 ^ 31 ≤ size ∧ size < 2 ^ 31) :
    (∃ c, GorgonMemory.Write sizeofT w st addr buffer offset size = .ok c ∧
      c.state.unmanaged = memcpy st.unmanaged addr st.managed
        (buffer.data + offset.toNat * sizeofT) (static_cast_size_t w size)) ∧
    (∃ c, GorgonMemory.Read sizeofT w st addr buffer offset size = .ok c ∧
      c.state.managed = memcpy st.managed (buffer.data + offset.toNat * sizeofT)
        st.unmanaged addr (static_cast_size_t w size)) ∧
    (size < 0 → (static_cast_size_t w size : Int) = size + 2 ^ w ∧
      ∀ n : Int, 0 ≤ n → n < 2 ^ 31 → n < static_cast_size_t w size) ∧
    ((static_cast_size_t w size : Int) = size ↔ 0 ≤ size) ∧
    (static_cast_size_t w size = 0 ↔ size = 0) ∧
    (∀ (dest src : Mem) (d s : Nat), memcpy dest d src s 0 = dest) := by
  have h32 := two_pow_32_le w hw
  refine ⟨⟨_, Write_valid sizeofT w st addr buffer offset size ho, rfl⟩,
    ⟨_, Read_valid sizeofT w st addr buffer offset size ho, rfl⟩, ?_, ?_, ?_, ?_⟩
  · intro hneg
    have e := static_cast_size_t_of_neg w size hw hs.1 hneg
    refine ⟨e, ?_⟩
    intro n _ hn
    omega
  · constructor
    · intro e
      omega
    · intro h0
      rw [static_cast_size_t_of_nonneg w size hw h0 hs.2]
      exact Int.toNat_of_nonneg h0
  · constructor
    · intro e
      by_cases hneg : size < 0
      · have e2 := static_cast_size_t_of_neg w size hw hs.1 hneg
        omega
      · rw [static_cast_size_t_of_nonneg w size hw (by omega) hs.2] at e
        omega
    · intro e
      subst e
      rw [static_cast_size_t_of_nonneg w 0 hw (by omega) (by norm_num)]
      rfl
  · intro dest d src s
    funext a
    unfold memcpy
    rw [if_neg (by omega)]

/-- Witness of C9: `size = -1` on a 64-bit `size_t` is the count `2^64 - 1`. -/
theorem negative_size_is_huge_count_witness :
    (static_cast_size_t 64 (-1) : Int) = -1 + 2 ^ 64 :=
  ((negative_size_is_huge_count 4 64 scenarioWrite 200 fourInts 1 (-1) (by decide)
    (by decide) (by decide)).2.2.1 (by decide)).1



/-- Witness of C8 amended: with the 4-element buffer, the valid `offset = 1` and
`size = -1` no exception is raised; the call faults or completes. -/
theorem array_ops_check_only_the_element_access_witness :
    OneMemory.Write 4 64 scenarioProcess 300 (some fourInts) 1 (-1) = .fault ∨
      ∃ m1, OneMemory.Write 4 64 scenarioProcess 300 (some fourInts) 1 (-1)
        = .completed none m1 :=
  ((array_ops_check_only_the_element_access 4 64 scenarioProcess 300 (some fourInts) 1
    (-1)).2.2.2.2.1 fourInts rfl (by decide)).1

/-! ## Two writes in a row -/

theorem oneMemory_Write_completes (sizeofT w : Nat) (m : Process) (d : Nat)
    (b : ManagedArray) (o : Int) (n : Nat) (hw : 32 ≤ w)
    (ho : 0 ≤ o ∧ o < b.Length) (hn : (n : Int) < 2 ^ 31)
    (hd : accessible m.regions d n = true)
    (hs : accessible m.regions (b.data + o.toNat * sizeofT) n = true) :
    OneMemory.Write sizeofT w m d (some b) o n
      = .completed none
          { bytes := memcpy m.bytes d m.bytes (b.data + o.toNat * sizeofT) n
            regions := m.regions } := by
  unfold OneMemory.Write
  rw [oneMemory_elementAddress_valid sizeofT b o ho,
    static_cast_size_t_of_nonneg w n hw (by omega) hn, Int.toNat_ofNat]
  simp [OneMemory.memcpy, hd, hs]

theorem memcpy_then_memcpy (mb : Mem) (d1 p1 n1 d2 p2 n2 a : Nat)
    (h12 : disjointRanges d1 n1 p2 n2) :
    memcpy (memcpy mb d1 mb p1 n1) d2 (memcpy mb d1 mb p1 n1) p2 n2 a =
      if d2 ≤ a ∧ a < d2 + n2 then mb (p2 + (a - d2))
      else if d1 ≤ a ∧ a < d1 + n1 then mb (p1 + (a - d1)) else mb a := by
  unfold disjointRanges at h12
  simp only [memcpy]
  by_cases hA : d2 ≤ a ∧ a < d2 + n2
  · rw [if_pos hA, if_pos hA, if_neg (by omega)]
  · rw [if_neg hA, if_neg hA]

/-- C10 as stated fails in the memory of a process: `Write(200, [1,2,3,4], 0, 8)` and
`Write(300, [5,6], 0, 8)`, the array `[5,6]` lying at address 200, have the disjoint
destination ranges `[200, 208)` and `[300, 308)`, both calls complete in either
order, and the bytes at 300 end as those of `[1,2]` in one order and of `[5,6]` in
the other. -/
theorem disjoint_destinations_do_not_commute :
    disjointRanges 200 8 300 8 ∧
    ∃ m1 m12 m2 m21,
      OneMemory.Write 4 64 scenarioProcess 200 (some fourInts) 0 8 = .completed none m1 ∧
      OneMemory.Write 4 64 m1 300 (some twoInts) 0 8 = .completed none m12 ∧
      OneMemory.Write 4 64 scenarioProcess 300 (some twoInts) 0 8 = .completed none m2 ∧
      OneMemory.Write 4 64 m2 200 (some fourInts) 0 8 = .completed none m21 ∧
      load m12.bytes 300 8 = int32ArrayBytes [1, 2] ∧
      load m21.bytes 300 8 = int32ArrayBytes [5, 6] ∧
      m12 ≠ m21 := by
  refine ⟨by decide, _, _, _, _, rfl, rfl, rfl, rfl, by decide, by decide, ?_⟩
  intro h
  have h2 := congrArg (fun p : Process => p.bytes 300) h
  revert h2
  decide

/-- C10 amended: two array `Write` calls on arrays lying in accessible memory, with
valid offsets, sizes `>= 0` within their buffers and accessible destinations, whose
destination ranges `[d1, d1 + s1)` and `[d2, d2 + s2)` are disjoint from each other
and from the bytes either call reads, complete in either order; both orders end in
the same memory, and there each destination range holds exactly what its own call,
run alone from the initial memory, writes. -/
theorem disjoint_writes_commute (sizeofT w : Nat) (m : Process)
    (d1 : Nat) (B1 : ManagedArray) (o1 s1 : Int) (d2 : Nat) (B2 : ManagedArray) (o2 s2 : Int)
    (hw : 32 ≤ w)
    (ho1 : 0 ≤ o1 ∧ o1 < B1.Length) (hs1 : 0 ≤ s1 ∧ s1 < 2 ^ 31)
    (ho2 : 0 ≤ o2 ∧ o2 < B2.Length) (hs2 : 0 ≤ s2 ∧ s2 < 2 ^ 31)
    (hB1 : accessible m.regions B1.data (B1.Length * sizeofT) = true)
    (hB2 : accessible m.regions B2.data (B2.Length * sizeofT) = true)
    (hin1 : o1 * sizeofT + s1 ≤ B1.Length * sizeofT)
    (hin2 : o2 * sizeofT + s2 ≤ B2.Length * sizeofT)
    (hd1 : accessible m.regions d1 s1.toNat = true)
    (hd2 : accessible m.regions d2 s2.toNat = true)
    (hdd : disjointRanges d1 s1.toNat d2 s2.toNat)
    (h11 : disjointRanges d1 s1.toNat (B1.data + o1.toNat * sizeofT) s1.toNat)
    (h12 : disjointRanges d1 s1.toNat (B2.data + o2.toNat * sizeofT) s2.toNat)
    (h21 : disjointRanges d2 s2.toNat (B1.data + o1.toNat * sizeofT) s1.toNat)
    (h22 : disjointRanges d2 s2.toNat (B2.data + o2.toNat * sizeofT) s2.toNat) :
    ∃ m1 m2 m12 m21,
      OneMemory.Write sizeofT w m d1 (some B1) o1 s1 = .completed none m1 ∧
      OneMemory.Write sizeofT w m d2 (some B2) o2 s2 = .completed none m2 ∧
      OneMemory.Write sizeofT w m1 d2 (some B2) o2 s2 = .completed none m12 ∧
      OneMemory.Write sizeofT w m2 d1 (some B1) o1 s1 = .completed none m21 ∧
      m12 = m21 ∧
      (∀ a : Nat, d1 ≤ a → (a : Int) < d1 + s1 → m12.bytes a = m1.bytes a) ∧
      (∀ a : Nat, d2 ≤ a → (a : Int) < d2 + s2 → m12.bytes a = m2.bytes a) := by
  obtain ⟨n1, rfl⟩ := Int.eq_ofNat_of_zero_le hs1.1
  obtain ⟨n2, rfl⟩ := Int.eq_ofNat_of_zero_le hs2.1
  obtain ⟨k1, rfl⟩ := Int.eq_ofNat_of_zero_le ho1.1
  obtain ⟨k2, rfl⟩ := Int.eq_ofNat_of_zero_le ho2.1
  simp only [Int.toNat_ofNat] at *
  have hin1n : k1 * sizeofT + n1 ≤ B1.Length * sizeofT := by exact_mod_cast hin1
  have hin2n : k2 * sizeofT + n2 ≤ B2.Length * sizeofT := by exact_mod_cast hin2
  have hp1 : accessible m.regions (B1.data + k1 * sizeofT) n1 = true :=
    accessible_sub _ _ _ _ _ hB1 (by omega) (by omega)
  have hp2 : accessible m.regions (B2.data + k2 * sizeofT) n2 = true :=
    accessible_sub _ _ _ _ _ hB2 (by omega) (by omega)
  have W1 := oneMemory_Write_completes sizeofT w m d1 B1 k1 n1 hw ho1 hs1.2 hd1 hp1
  have W2 := oneMemory_Write_completes sizeofT w m d2 B2 k2 n2 hw ho2 hs2.2 hd2 hp2
  simp only [Int.toNat_ofNat] at W1 W2
  have W12 := oneMemory_Write_completes sizeofT w
    { bytes := memcpy m.bytes d1 m.bytes (B1.data + k1 * sizeofT) n1, regions := m.regions }
    d2 B2 k2 n2 hw ho2 hs2.2 hd2 hp2
  have W21 := oneMemory_Write_completes sizeofT w
    { bytes := memcpy m.bytes d2 m.bytes (B2.data + k2 * sizeofT) n2, regions := m.regions }
    d1 B1 k1 n1 hw ho1 hs1.2 hd1 hp1
  simp only [Int.toNat_ofNat] at W12 W21
  have E12 := fun a => memcpy_then_memcpy m.bytes d1 (B1.data + k1 * sizeofT) n1
    d2 (B2.data + k2 * sizeofT) n2 a h12
  have E21 := fun a => memcpy_then_memcpy m.bytes d2 (B2.data + k2 * sizeofT) n2
    d1 (B1.data + k1 * sizeofT) n1 a h21
  unfold disjointRanges at hdd
  refine ⟨_, _, _, _, W1, W2, W12, W21, ?_, ?_, ?_⟩
  · show Process.mk _ _ = Process.mk _ _
    congr 1
    funext a
    rw [E12 a, E21 a]
    by_cases hA1 : d1 ≤ a ∧ a < d1 + n1
    · rw [if_pos hA1, if_neg (by omega), if_pos hA1]
    · rw [if_neg hA1, if_neg hA1]
  · intro a ha1 ha2
    show memcpy _ _ _ _ _ a = memcpy _ _ _ _ _ a
    rw [E12 a, if_neg (by omega)]
    simp only [memcpy]
  · intro a ha1 ha2
    show memcpy _ _ _ _ _ a = memcpy _ _ _ _ _ a
    rw [E12 a, if_pos (by omega)]
    simp only [memcpy]
    rw [if_pos (by omega)]

/-- Witness of C10: elements 0..1 of `[1,2,3,4]` to address 300 and elements 2..3 to
address 308. -/
theorem disjoint_writes_commute_witness :
    ∃ m1 m2 m12 m21,
      OneMemory.Write 4 64 scenarioProcess 300 (some fourInts) 0 8 = .completed none m1 ∧
      OneMemory.Write 4 64 scenarioProcess 308 (some fourInts) 2 8 = .completed none m2 ∧
      OneMemory.Write 4 64 m1 308 (some fourInts) 2 8 = .completed none m12 ∧
      OneMemory.Write 4 64 m2 300 (some fourInts) 0 8 = .completed none m21 ∧
      m12 = m21 ∧
      (∀ a : Nat, 300 ≤ a → (a : Int) < (300 : Nat) + 8 → m12.bytes a = m1.bytes a) ∧
      (∀ a : Nat, 308 ≤ a → (a : Int) < (308 : Nat) + 8 → m12.bytes a = m2.bytes a) :=
  disjoint_writes_commute 4 64 scenarioProcess 300 fourInts 0 8 308 fourInts 2 8
    (by decide) (by decide) (by decide) (by decide) (by decide) (by decide) (by decide)
    (by decide) (by decide) (by decide) (by decide) (by decide) (by decide) (by decide)
    (by decide) (by decide)

end Memory
